import Mathlib

/-!
# NodeFinder search core: a shallow embedding with proofs

This file embeds the core of the NodeFinder repository in Lean 4 and proves
properties of it.  Embedded from source:

* `src/nodefinder/_result/_result.py` (`ResultContainer`),
* `src/nodefinder/search/_controller.py` (`Controller`),
* `src/nodefinder/_nelder_mead.py` (`root_nelder_mead`).

Components of the repository that are not part of the sources at hand
(`CoordinateSystem`, `CellList`, the work queues, `io.save`/`io.load`, the
minimization task runner) are modelled from the specification; each such
definition carries a doc comment starting with `Modelled from the spec:`.

Numbers are rationals.  Euclidean distances are represented throughout by
their squares (`distance_sq`), which keeps every definition executable over
`ℚ`; comparisons `dist < cutoff` of the source become `dist_sq < cutoff_sq`,
an equivalent test for nonnegative cutoffs.
-/

namespace NodeFinder

/-! ### Rational and vector helpers -/

/-- `a` reduced modulo `b`: `a - b * ⌊a / b⌋`, the representative in `[0, b)`
for `b > 0`. -/
def qmod (a b : ℚ) : ℚ := a - b * (⌊a / b⌋ : ℚ)

/-- Componentwise sum of two coordinate vectors. -/
def vadd (a b : List ℚ) : List ℚ := List.zipWith (· + ·) a b

/-- Componentwise difference of two coordinate vectors. -/
def vsub (a b : List ℚ) : List ℚ := List.zipWith (· - ·) a b

/-- Scale a coordinate vector by a rational. -/
def vscale (c : ℚ) (v : List ℚ) : List ℚ := v.map (c * ·)

/-- Sum of a nonempty list of vectors (empty list gives the empty vector). -/
def sumVecs : List (List ℚ) → List ℚ
  | [] => []
  | [v] => v
  | v :: rest => vadd v (sumVecs rest)

/-- Maximum of a list of rationals, `0` for the empty list (the source only
takes maxima of nonempty lists of absolute values). -/
def maxList (l : List ℚ) : ℚ := l.foldr max 0

/-! ### Coordinate system -/

/-- Modelled from the spec: the repository module `nodefinder.coordinate_system`
is not among the sources at hand.  Per spec §3/§4.1 a `CoordinateSystem` holds
per-dimension `[lower, upper)` limits and per-dimension periodicity flags. -/
structure CoordinateSystem where
  limits : List (ℚ × ℚ)
  periodic : List Bool
deriving DecidableEq

namespace CoordinateSystem

/-- Per-dimension size `upper - lower` of the domain. -/
def size (cs : CoordinateSystem) : List ℚ :=
  cs.limits.map (fun lu => lu.2 - lu.1)

/-- Modelled from the spec: `normalize_position` wraps periodic components
into `limits` (spec §4.1); non-periodic components are unchanged. -/
def normalize_position (cs : CoordinateSystem) (pos : List ℚ) : List ℚ :=
  (List.range pos.length).map fun i =>
    let x := pos.getD i 0
    let lu := cs.limits.getD i (0, 1)
    if cs.periodic.getD i false then lu.1 + qmod (x - lu.1) (lu.2 - lu.1) else x

/-- Modelled from the spec: `get_frac` maps a position to fractional
coordinates, normalized into `[0,1)` on periodic dimensions (spec §3). -/
def get_frac (cs : CoordinateSystem) (pos : List ℚ) : List ℚ :=
  (List.range pos.length).map fun i =>
    let x := pos.getD i 0
    let lu := cs.limits.getD i (0, 1)
    let f := (x - lu.1) / (lu.2 - lu.1)
    if cs.periodic.getD i false then qmod f 1 else f

/-- Squared minimum-image displacement in one dimension of size `L`. -/
def minImageDeltaSq (L : ℚ) (periodic : Bool) (d : ℚ) : ℚ :=
  if periodic then
    let r := qmod d L
    (min r (L - r)) ^ 2
  else d ^ 2

/-- Modelled from the spec: squared minimum-image Euclidean distance
respecting periodicity (spec §3: `distance(a, b)` is the minimum-image
Euclidean distance; this file represents it by its square). -/
def distance_sq (cs : CoordinateSystem) (a b : List ℚ) : ℚ :=
  ((List.range a.length).map fun i =>
    minImageDeltaSq ((cs.size).getD i 1) (cs.periodic.getD i false)
      (b.getD i 0 - a.getD i 0)).sum

end CoordinateSystem

/-! ### Cell list spatial index -/

/-- Modelled from the spec: the repository module
`nodefinder._result._cell_list` is not among the sources at hand.  Per spec
§4.2 the cell list partitions the domain into `num_cells` buckets per
dimension; each stored value is keyed by the bucket of its fractional
coordinates: `floor(frac_i * num_cells_i)` per dimension. -/
structure CellList (α : Type) where
  num_cells : List ℤ
  points : List (List ℤ × α)
deriving DecidableEq

namespace CellList

/-- Bucket index of fractional coordinates: `⌊frac_i * num_cells_i⌋`. -/
def bucketIdx (num_cells : List ℤ) (frac : List ℚ) : List ℤ :=
  (List.range num_cells.length).map fun i =>
    ⌊frac.getD i 0 * ((num_cells.getD i 1 : ℤ) : ℚ)⌋

/-- Modelled from the spec: `add_point(frac, value)` inserts `value` into the
bucket determined by `floor(frac_i * num_cells_i)`; always succeeds. -/
def add_point (cl : CellList α) (frac : List ℚ) (v : α) : CellList α :=
  { cl with points := cl.points ++ [(bucketIdx cl.num_cells frac, v)] }

/-- All stored values, flattened over all buckets. -/
def values (cl : CellList α) : List α := cl.points.map (·.2)

/-- Whether bucket coordinate `b` matches `c + off` in a dimension with `n`
buckets: with periodic wraparound of the bucket index, or clipped to the
valid range for non-periodic dimensions (spec §4.2). -/
def idxMatches (n : ℤ) (periodic : Bool) (c b off : ℤ) : Bool :=
  if periodic then (c + off) % n == b else min (n - 1) (max 0 (c + off)) == b

/-- Bucket `b` is the query bucket `c` or one of its immediate neighbours in
one dimension. -/
def isNeighbourIdx (n : ℤ) (periodic : Bool) (c b : ℤ) : Bool :=
  idxMatches n periodic c b (-1) || idxMatches n periodic c b 0 ||
    idxMatches n periodic c b 1

/-- Bucket `b` is among the `3^d` buckets adjacent to (or equal to) the
bucket of `frac`. -/
def isNeighbourBucket (cl : CellList α) (frac : List ℚ) (periodic : Bool)
    (b : List ℤ) : Bool :=
  let c := bucketIdx cl.num_cells frac
  (List.range cl.num_cells.length).all fun i =>
    isNeighbourIdx (cl.num_cells.getD i 1) periodic (c.getD i 0) (b.getD i 0)

/-- Modelled from the spec: `get_neighbour_values(frac, periodic)` returns all
values stored in the query bucket of `frac` and its immediate neighbour
buckets, with periodic bucket-index wraparound (spec §4.2). -/
def get_neighbour_values (cl : CellList α) (frac : List ℚ) (periodic : Bool) :
    List α :=
  (cl.points.filter fun p => isNeighbourBucket cl frac periodic p.1).map (·.2)

end CellList

/-! ### Minimization results and the result container
(`src/nodefinder/_result/_result.py`) -/

/-- A minimization result: converged position, function value, success flag
(spec §3 "Minimization Result"). -/
structure MinimizationResult where
  pos : List ℚ
  value : ℚ
  success : Bool
deriving DecidableEq

/-- The result container of `src/nodefinder/_result/_result.py`: accepted
results live in the cell list `nodes`, rejected ones in `rejected_results`. -/
structure ResultContainer where
  coordinate_system : CoordinateSystem
  gap_threshold : ℚ
  dist_cutoff_sq : ℚ
  nodes : CellList MinimizationResult
  rejected_results : List MinimizationResult
deriving DecidableEq

namespace ResultContainer

/-- `num_cells` as computed in `ResultContainer.__init__`:
`min(100, max(1, int(size / dist_cutoff)))` per dimension, or 100 everywhere
when `dist_cutoff == 0`.  `dist_cutoff` is nonnegative in every use
(`feature_size / 3`), so integer truncation is `⌊·⌋.toNat`. -/
def mkNumCells (cs : CoordinateSystem) (dist_cutoff : ℚ) : List ℤ :=
  if dist_cutoff = 0 then cs.size.map fun _ => 100
  else cs.size.map fun s => min 100 (max 1 ⌊s / dist_cutoff⌋)

/-- A fresh container with no results, as built by `ResultContainer.__init__`
with `minimization_results=()`.  The distance cutoff is carried as its square
`dist_cutoff_sq = dist_cutoff ^ 2`. -/
def empty (cs : CoordinateSystem) (gap_threshold dist_cutoff : ℚ) :
    ResultContainer :=
  { coordinate_system := cs
    gap_threshold := gap_threshold
    dist_cutoff_sq := dist_cutoff ^ 2
    nodes := { num_cells := mkNumCells cs dist_cutoff, points := [] }
    rejected_results := [] }

/-- `ResultContainer.add_result` from `_result.py` lines 62–69.  The Python
method first mutates `res.pos` in place to the normalized position, then
routes the result; the pure embedding returns the updated container, the
acceptance flag, and the normalized result (the value `res` holds after the
call). -/
def add_result (c : ResultContainer) (res : MinimizationResult) :
    ResultContainer × Bool × MinimizationResult :=
  let res' := { res with
    pos := c.coordinate_system.normalize_position res.pos }
  if !res'.success || res'.value > c.gap_threshold then
    ({ c with rejected_results := c.rejected_results ++ [res'] }, false, res')
  else
    ({ c with
        nodes := c.nodes.add_point
          (c.coordinate_system.get_frac res'.pos) res' }, true, res')

/-- `ResultContainer._get_neighbour_iterator`: candidates from the cell list
around `pos`, dropping every stored result whose position equals `pos`
exactly (`np.any(c.pos != pos)` keeps a candidate iff some coordinate
differs). -/
def get_neighbour_iterator (c : ResultContainer) (pos : List ℚ) :
    List MinimizationResult :=
  (c.nodes.get_neighbour_values (c.coordinate_system.get_frac pos) true).filter
    fun r => r.pos ≠ pos

/-- `ResultContainer.get_neighbour_distance_iterator` from `_result.py` lines
81–85, with distances represented by their squares. -/
def get_neighbour_distance_iterator (c : ResultContainer) (pos : List ℚ) :
    List ℚ :=
  (c.get_neighbour_iterator pos).map
    fun r => c.coordinate_system.distance_sq pos r.pos

end ResultContainer

/-! ### Nelder-Mead minimizer (`src/nodefinder/_nelder_mead.py`) -/

/-- One simplex vertex paired with its objective value (`sim[i]`, `fsim[i]`). -/
abbrev SimVertex := List ℚ × ℚ

/-- Insert a vertex into a list sorted by ascending objective value. -/
def insertByValue (x : SimVertex) : List SimVertex → List SimVertex
  | [] => [x]
  | y :: ys => if x.2 ≤ y.2 then x :: y :: ys else y :: insertByValue x ys

/-- Sort vertices by ascending objective value; models
`ind = np.argsort(fsim); sim = np.take(sim, ind, 0); fsim = np.take(fsim, ind, 0)`
(the claims settled here do not depend on the order among equal values). -/
def sortByValue : List SimVertex → List SimVertex
  | [] => []
  | x :: xs => insertByValue x (sortByValue xs)

/-- Reflection coefficient `rho = 1`. -/
def nmRho : ℚ := 1

/-- Expansion coefficient `chi = 2`. -/
def nmChi : ℚ := 2

/-- Contraction coefficient `psi = 0.5`. -/
def nmPsi : ℚ := 1 / 2

/-- Shrink coefficient `sigma = 0.5`. -/
def nmSigma : ℚ := 1 / 2

/-- `nonzdelt = 0.05`. -/
def nmNonzdelt : ℚ := 5 / 100

/-- `zdelt = 0.00025`. -/
def nmZdelt : ℚ := 25 / 100000

/-- Loop state of `root_nelder_mead`: the value-sorted simplex, the
evaluation counter `fcalls[0]` and the iteration counter. -/
structure NMState where
  sim : List SimVertex
  fcalls : ℕ
  iterations : ℕ
deriving DecidableEq

/-- Replace the worst (last) vertex: `sim[-1] = xnew; fsim[-1] = fnew`. -/
def replaceWorst (sim : List SimVertex) (v : SimVertex) : List SimVertex :=
  sim.dropLast ++ [v]

/-- The shrink step (`for j in one2np1: sim[j] = sim[0] + sigma * (sim[j] -
sim[0]); fsim[j] = func(sim[j])`): every non-best vertex moves toward the best
one and is re-evaluated. -/
def nmShrink (f : List ℚ → ℚ) (sim : List SimVertex) : List SimVertex :=
  match sim with
  | [] => []
  | s0 :: rest =>
      s0 :: rest.map fun p =>
        let q := vadd s0.1 (vscale nmSigma (vsub p.1 s0.1))
        (q, f q)

/-- One pass of the main loop body of `root_nelder_mead` (lines 170–214 of
`_nelder_mead.py`), excluding the final re-sort: the updated (unsorted)
simplex together with the number of objective evaluations the pass made. -/
def nmBody (f : List ℚ → ℚ) (sim : List SimVertex) : List SimVertex × ℕ :=
  let n := sim.length - 1
  let best := sim.headD ([], 0)
  let worst := sim.getLastD ([], 0)
  let secondWorst := sim.dropLast.getLastD ([], 0)
  let xbar := vscale (1 / (n : ℚ)) (sumVecs (sim.dropLast.map (·.1)))
  let xr := vsub (vscale (1 + nmRho) xbar) (vscale nmRho worst.1)
  let fxr := f xr
  if fxr < best.2 then
    let xe := vsub (vscale (1 + nmRho * nmChi) xbar)
      (vscale (nmRho * nmChi) worst.1)
    let fxe := f xe
    if fxe < fxr then (replaceWorst sim (xe, fxe), 2)
    else (replaceWorst sim (xr, fxr), 2)
  else
    if fxr < secondWorst.2 then (replaceWorst sim (xr, fxr), 1)
    else
      if fxr < worst.2 then
        let xc := vsub (vscale (1 + nmPsi * nmRho) xbar)
          (vscale (nmPsi * nmRho) worst.1)
        let fxc := f xc
        if fxc ≤ fxr then (replaceWorst sim (xc, fxc), 2)
        else (nmShrink f sim, 2 + n)
      else
        let xcc := vadd (vscale (1 - nmPsi) xbar) (vscale nmPsi worst.1)
        let fxcc := f xcc
        if fxcc < worst.2 then (replaceWorst sim (xcc, fxcc), 2)
        else (nmShrink f sim, 2 + n)

/-- The convergence test at the top of the loop: every coordinate of every
non-best vertex within `xtol` of the best vertex, and every value within
`ftol` of the best value. -/
def nmConverged (sim : List SimVertex) (xtol ftol : ℚ) : Bool :=
  let best := sim.headD ([], 0)
  decide (maxList ((sim.tail.map fun p =>
      (vsub p.1 best.1).map fun x => |x|).flatten) ≤ xtol) &&
    decide (maxList (sim.tail.map fun p => |best.2 - p.2|) ≤ ftol)

/-- The main loop of `root_nelder_mead`
(`while fcalls[0] < maxfun and iterations < maxiter`), by recursion on the
remaining iteration budget; each pass increments `iterations`. -/
def nmLoop (f : List ℚ → ℚ) (xtol ftol : ℚ) (maxfun maxiter : ℕ)
    (st : NMState) : NMState :=
  if _h : st.fcalls < maxfun ∧ st.iterations < maxiter then
    if nmConverged st.sim xtol ftol then st
    else
      let step := nmBody f st.sim
      nmLoop f xtol ftol maxfun maxiter
        { sim := sortByValue step.1
          fcalls := st.fcalls + step.2
          iterations := st.iterations + 1 }
  else st
termination_by maxiter - st.iterations
decreasing_by simp; omega

/-- The initial simplex: `x0` plus, for each dimension `k`, `x0` with its
`k`-th component scaled by `1 + nonzdelt` (or set to `zdelt` when zero). -/
def nmInitialPoints (x0 : List ℚ) : List (List ℚ) :=
  x0 :: (List.range x0.length).map fun k =>
    let xk := x0.getD k 0
    x0.set k (if xk ≠ 0 then (1 + nmNonzdelt) * xk else nmZdelt)

/-- Minimum of a list of rationals (`np.min(fsim)`); `0` for the empty list. -/
def minList : List ℚ → ℚ
  | [] => 0
  | x :: xs => xs.foldl min x

/-- The fields of the returned `OptimizeResult` the claims are about. -/
structure OptimizeResult where
  x : List ℚ
  fval : ℚ
  nit : ℕ
  nfev : ℕ
  status : ℕ
  success : Bool
deriving DecidableEq

/-- `root_nelder_mead` from `src/nodefinder/_nelder_mead.py`, lines 87–259.
The objective is a total function, matching the claims' premise that every
individual evaluation returns; `maxiter` and `maxfev` default to `N * 200`
for an `N`-dimensional starting point. -/
def root_nelder_mead (f : List ℚ → ℚ) (x0 : List ℚ) (xtol ftol : ℚ)
    (maxiter maxfev : Option ℕ) : OptimizeResult :=
  let n := x0.length
  let maxiterR := maxiter.getD (n * 200)
  let maxfunR := maxfev.getD (n * 200)
  let sim0 := sortByValue ((nmInitialPoints x0).map fun p => (p, f p))
  let stFinal := nmLoop f xtol ftol maxfunR maxiterR
    { sim := sim0, fcalls := n + 1, iterations := 1 }
  let warnflag : ℕ :=
    if stFinal.fcalls ≥ maxfunR then 1
    else if stFinal.iterations ≥ maxiterR then 2
    else 0
  { x := (stFinal.sim.headD ([], 0)).1
    fval := minList (stFinal.sim.map (·.2))
    nit := stFinal.iterations
    nfev := stFinal.fcalls
    status := warnflag
    success := warnflag == 0 }

/-! ### Work queues -/

/-- Modelled from the spec: the repository module `nodefinder.search._queue`
is not among the sources at hand.  Spec §3/§4.4: the simplex queue tracks
objects in the states queued → running → finished; each object is in exactly
one state. -/
structure SimplexQueue (α : Type) where
  queued : List α
  running : List α
  finishedObjs : List α
deriving DecidableEq

namespace SimplexQueue

/-- Modelled from the spec: `add_objects` adds new objects in queued state. -/
def add_objects (q : SimplexQueue α) (objs : List α) : SimplexQueue α :=
  { q with queued := q.queued ++ objs }

/-- `has_queued` is true iff at least one object is queued. -/
def has_queued (q : SimplexQueue α) : Bool := !q.queued.isEmpty

/-- `num_running` counts the running objects. -/
def num_running (q : SimplexQueue α) : ℕ := q.running.length

/-- Queue-level `finished`: no object is queued or running (spec §3). -/
def finished (q : SimplexQueue α) : Bool :=
  q.queued.isEmpty && q.running.isEmpty

/-- Modelled from the spec: `pop_queued` transitions one queued object to
running and returns it; callers check `has_queued` first (spec §4.4). -/
def pop_queued (q : SimplexQueue α) : Option (α × SimplexQueue α) :=
  match q.queued with
  | [] => none
  | x :: rest =>
      some (x, { q with queued := rest, running := q.running ++ [x] })

/-- Remove the first occurrence of `x` (`list.remove(obj)`). -/
def removeFirst [DecidableEq α] (x : α) : List α → List α
  | [] => []
  | y :: ys => if y = x then ys else y :: removeFirst x ys

/-- Modelled from the spec: `set_finished` transitions a running object to
finished, releasing its concurrency slot (spec §4.4). -/
def set_finished [DecidableEq α] (q : SimplexQueue α) (x : α) :
    SimplexQueue α :=
  { q with running := removeFirst x q.running,
           finishedObjs := q.finishedObjs ++ [x] }

end SimplexQueue

/-- Modelled from the spec: the position queue holds queued positions; its
pop removes the object from tracking entirely — no running phase
(spec §3/§4.4). -/
structure PositionQueue where
  queued : List (List ℚ)
deriving DecidableEq

namespace PositionQueue

/-- Modelled from the spec: `add_objects` adds new positions in queued state. -/
def add_objects (q : PositionQueue) (objs : List (List ℚ)) : PositionQueue :=
  { queued := q.queued ++ objs }

/-- `has_queued` is true iff at least one position is queued. -/
def has_queued (q : PositionQueue) : Bool := !q.queued.isEmpty

end PositionQueue

/-! ### The search controller (`src/nodefinder/search/_controller.py`) -/

/-- A simplex: its list of vertices. -/
abbrev Simplex := List (List ℚ)

/-- The persistable `ControllerState` (spec §3): the result container, the
two work queues, and the dirty flag `needs_saving`. -/
structure ControllerState where
  result : ResultContainer
  simplex_queue : SimplexQueue Simplex
  position_queue : PositionQueue
  needs_saving : Bool
deriving DecidableEq

/-- Modelled from the spec: a scheduled minimization task future (spec §4.6
minimizer contract: given a starting simplex it asynchronously produces
exactly one result, or propagates the objective's error).  `countdown` is the
number of scheduling-loop suspensions before the task completes — at least
one, since a task scheduled with `asyncio.ensure_future` cannot run before
control is yielded; once it is 0 the future is done. -/
instance {ε α : Type} [DecidableEq ε] [DecidableEq α] :
    DecidableEq (Except ε α) := fun a b =>
  match a, b with
  | Except.ok x, Except.ok y => decidable_of_iff (x = y) (by simp)
  | Except.error e, Except.error g => decidable_of_iff (e = g) (by simp)
  | Except.ok _, Except.error _ => isFalse (by simp)
  | Except.error _, Except.ok _ => isFalse (by simp)

structure TaskFuture where
  simplex : Simplex
  countdown : ℕ
  outcome : Except ℕ MinimizationResult
deriving DecidableEq

/-- The configuration fields of `Controller` used by the scheduling loop.
The deduplication distance cutoff is carried as its square
(`dist_cutoff = feature_size / 3`).  `env` models the external minimizer:
for each simplex, the number of suspensions its task takes beyond the first
and its outcome (`Except.error` when an objective evaluation raises). -/
structure Controller where
  dist_cutoff_sq : ℚ
  recheck_pos_dist : Bool
  recheck_count_cutoff : ℕ
  refinement_stencil : Option (List Simplex)
  num_minimize_parallel : ℕ
  env : Simplex → ℕ × Except ℕ MinimizationResult

/-- The loop of `Controller._check_pos_refinement` (lines 302–308): walk the
neighbour distances, counting those below the cutoff, and return `False` as
soon as the count exceeds `count_cutoff`. -/
def checkCount (cutoff_sq : ℚ) (count_cutoff : ℕ) :
    List ℚ → ℕ → Bool
  | [], _ => true
  | d :: rest, count =>
      let count1 := if d < cutoff_sq then count + 1 else count
      if count1 > count_cutoff then false
      else checkCount cutoff_sq count_cutoff rest count1

/-- `Controller._check_pos_refinement` (lines 296–308): whether a position
should be scheduled for refinement, tolerating at most `count_cutoff`
accepted nodes (exact position matches excluded) within the cutoff
distance. -/
def Controller.check_pos_refinement (cfg : Controller) (st : ControllerState)
    (pos : List ℚ) (count_cutoff : ℕ) : Bool :=
  checkCount cfg.dist_cutoff_sq count_cutoff
    (st.result.get_neighbour_distance_iterator pos) 0

/-- The decision of `Controller.process_result` line 292: the check is called
with its default tolerance `count_cutoff = 0`. -/
def Controller.accept_decision (cfg : Controller) (st : ControllerState)
    (pos : List ℚ) : Bool :=
  cfg.check_pos_refinement st pos 0

/-- The decision at the position-queue pop (lines 232–236): skip the check
entirely when `recheck_pos_dist` is unset, else call it with tolerance
`recheck_count_cutoff`. -/
def Controller.pop_decision (cfg : Controller) (st : ControllerState)
    (pos : List ℚ) : Bool :=
  !cfg.recheck_pos_dist ||
    cfg.check_pos_refinement st pos cfg.recheck_count_cutoff

/-- `Controller.process_result` (lines 284–294): ingest the result into the
result container; if it was newly accepted and a refinement stencil is
configured, re-run the deduplication check (against the state that now
contains the node, at the normalized position the Python code reads from the
mutated `result.pos`) and on success enqueue the position. -/
def Controller.process_result (cfg : Controller) (st : ControllerState)
    (res : MinimizationResult) : ControllerState :=
  let r := st.result.add_result res
  let st1 := { st with result := r.1, needs_saving := true }
  if r.2.1 && cfg.refinement_stencil.isSome then
    if cfg.accept_decision st1 r.2.2.pos then
      { st1 with position_queue :=
          st1.position_queue.add_objects [r.2.2.pos] }
    else st1
  else st1

/-- `pos + self.refinement_stencil` (line 242): the refinement stencil
translated to a position (numpy broadcast adds `pos` to every vertex). -/
def translateStencil (pos : List ℚ) (stencil : List Simplex) : List Simplex :=
  stencil.map fun s => s.map fun v => vadd pos v

/-- The innermost loop of `Controller.create_tasks` (lines 229–245): while no
simplex is queued, pop queued positions, expanding each into refinement
simplices unless the pop decision rejects it. -/
def Controller.drain_positions (cfg : Controller) (st : ControllerState) :
    ControllerState :=
  if st.simplex_queue.has_queued then st
  else
    match hq : st.position_queue.queued with
    | [] => st
    | pos :: rest =>
        let st1 := { st with position_queue := ⟨rest⟩ }
        let stencil := cfg.refinement_stencil.getD []
        if cfg.pop_decision st1 pos then
          cfg.drain_positions
            { st1 with simplex_queue :=
                st1.simplex_queue.add_objects (translateStencil pos stencil) }
        else cfg.drain_positions st1
termination_by st.position_queue.queued.length
decreasing_by all_goals (simp only [hq]; simp)

/-- Observable events of the scheduling loop, recorded for the temporal
claims: a scheduled minimization, a suspension point (`await
asyncio.sleep(0.)`, recorded with the number of running simplices at that
point), the abort on a harvested task exception, the final await of all
outstanding futures, and the final checkpoint write. -/
inductive SchedEvent where
  | sched (s : Simplex)
  | susp (numRunning : ℕ)
  | abortRun
  | gatherTasks
  | finalSave
deriving DecidableEq

/-- The middle loop of `create_tasks` (lines 225–250): while fewer than
`num_minimize_parallel` simplices are running, drain queued positions, then
pop one queued simplex and schedule its minimization as a concurrent task.
The recursion is on the number of free concurrency slots, which bounds the
loop: each pass moves exactly one simplex to running and the position drain
leaves the running set untouched. -/
def Controller.schedule_aux (cfg : Controller) :
    ℕ → ControllerState → List TaskFuture →
      ControllerState × List TaskFuture × List SchedEvent
  | 0, st, futures => (st, futures, [])
  | slots + 1, st, futures =>
    if st.simplex_queue.num_running < cfg.num_minimize_parallel then
      let st1 := cfg.drain_positions st
      match st1.simplex_queue.pop_queued with
      | some sq =>
          let fut : TaskFuture :=
            { simplex := sq.1, countdown := (cfg.env sq.1).1 + 1,
              outcome := (cfg.env sq.1).2 }
          let next := cfg.schedule_aux slots
            { st1 with simplex_queue := sq.2 } (futures ++ [fut])
          (next.1, next.2.1, SchedEvent.sched sq.1 :: next.2.2)
      | none => (st1, futures, [])
    else (st, futures, [])

/-- Entry point of the middle loop, with enough slots for its while
condition `num_running < num_minimize_parallel`. -/
def Controller.schedule_phase (cfg : Controller) (st : ControllerState)
    (futures : List TaskFuture) :
    ControllerState × List TaskFuture × List SchedEvent :=
  cfg.schedule_aux
    (cfg.num_minimize_parallel - st.simplex_queue.num_running) st futures

/-- Modelled from the spec together with `Controller.run_simplex` (lines
271–282): at a suspension of the scheduling loop every in-flight task makes
progress.  A task that completes processes its result into the state and
marks its simplex finished; a task whose objective raised keeps its
exception for the harvest (the `set_finished` after the failing await is
never reached). -/
def Controller.sleep_step (cfg : Controller) (st : ControllerState) :
    List TaskFuture → ControllerState × List TaskFuture
  | [] => (st, [])
  | f :: rest =>
    if f.countdown = 0 then
      let next := cfg.sleep_step st rest
      (next.1, f :: next.2)
    else if f.countdown = 1 then
      match f.outcome with
      | Except.ok res =>
          let st1 := cfg.process_result st res
          let st2 := { st1 with simplex_queue :=
            st1.simplex_queue.set_finished f.simplex }
          let next := cfg.sleep_step st2 rest
          (next.1, { f with countdown := 0 } :: next.2)
      | Except.error _ =>
          let next := cfg.sleep_step st rest
          (next.1, { f with countdown := 0 } :: next.2)
    else
      let next := cfg.sleep_step st rest
      (next.1, { f with countdown := f.countdown - 1 } :: next.2)

/-- The exceptions the harvest retrieves (lines 256–258): `fut.exception()`
of every completed future, in order, `None`s dropped. -/
def doneErrors (futures : List TaskFuture) : List ℕ :=
  (futures.filter fun f => f.countdown == 0).filterMap fun f =>
    match f.outcome with
    | Except.error e => some e
    | Except.ok _ => none

/-- How a run of the scheduling loop ends: aborted on the first harvested
exception (with the drained exception list and the futures at that point),
completed normally, or out of model fuel. -/
inductive RunOutcome where
  | aborted (e : ℕ) (drained : List ℕ) (futures : List TaskFuture)
  | completed (st : ControllerState) (futures : List TaskFuture)
  | outOfFuel (st : ControllerState) (futures : List TaskFuture)
deriving DecidableEq

/-- The scheduling loop of `Controller.create_tasks` (lines 221–262): while
the simplex queue is not finished or the position queue has queued entries —
run the schedule phase, suspend, then harvest: retrieve the exceptions of
all completed futures, re-raise the first one if any, and drop the completed
futures from the tracked set.  `fuel` bounds the number of loop passes the
model runs. -/
def Controller.create_tasks_loop (cfg : Controller) :
    ℕ → ControllerState → List TaskFuture → RunOutcome × List SchedEvent
  | 0, st, futures => (RunOutcome.outOfFuel st futures, [])
  | fuel + 1, st, futures =>
    if !st.simplex_queue.finished || st.position_queue.has_queued then
      let sp := cfg.schedule_phase st futures
      let slept := cfg.sleep_step sp.1 sp.2.1
      match doneErrors slept.2 with
      | e :: rest =>
          (RunOutcome.aborted e (e :: rest) slept.2,
            sp.2.2 ++ [SchedEvent.susp sp.1.simplex_queue.num_running,
              SchedEvent.abortRun])
      | [] =>
          let next := cfg.create_tasks_loop fuel slept.1
            (slept.2.filter fun f => f.countdown != 0)
          (next.1,
            sp.2.2 ++ SchedEvent.susp sp.1.simplex_queue.num_running :: next.2)
    else (RunOutcome.completed st futures, [])

/-- Modelled from the spec: `await asyncio.gather(*self.task_futures)` —
every outstanding scheduled task runs to completion (spec §4.7.5: tasks
always finish once scheduled, no cancellation mid-flight), each completion
being processed as usual.  The fuel `max countdown` suffices, since every
suspension decrements every positive countdown. -/
def Controller.gather_aux (cfg : Controller) :
    ℕ → ControllerState → List TaskFuture → ControllerState × List TaskFuture
  | 0, st, futures => (st, futures)
  | n + 1, st, futures =>
    if futures.all fun f => f.countdown == 0 then (st, futures)
    else
      let next := cfg.sleep_step st futures
      cfg.gather_aux n next.1 next.2

/-- Await all outstanding futures to completion. -/
def Controller.gather_all (cfg : Controller) (st : ControllerState)
    (futures : List TaskFuture) : ControllerState × List TaskFuture :=
  cfg.gather_aux ((futures.map (·.countdown)).foldr max 0) st futures

/-- `Controller.create_tasks` (lines 216–263): run the scheduling loop; once
it exits, await all outstanding task futures, then write the final
checkpoint.  The final save after the gather is modelled from the spec
(§4.7.5: outstanding tasks are awaited to completion before the final
checkpoint; the periodic-save context manager is external to the
repository); the periodic saves during the loop do not change the
scheduling state and are left out of the event trace. -/
def Controller.create_tasks (cfg : Controller) (fuel : ℕ)
    (st : ControllerState) : RunOutcome × List SchedEvent :=
  match cfg.create_tasks_loop fuel st [] with
  | (RunOutcome.completed st1 futs, evs) =>
      let g := cfg.gather_all st1 futs
      (RunOutcome.completed g.1 g.2,
        evs ++ [SchedEvent.gatherTasks, SchedEvent.finalSave])
  | other => other

/-! ### Checkpoint persistence (`Controller.save`, lines 310–324) -/

/-- The file-system state `Controller.save` touches: the checkpoint at the
target save path (`none` when absent) and whether a temporary file currently
exists in the target's directory (the `NamedTemporaryFile` is created with
`dir=os.path.dirname(self.save_file)`). -/
structure SaveFS where
  target : Option ℕ
  tmp_present : Bool
deriving DecidableEq

/-- Outcome of `Controller.save`: the file system after the call, the
state's `needs_saving` flag after, and whether an exception was re-raised. -/
structure SaveResult where
  fs : SaveFS
  needs_saving : Bool
  raised : Bool
deriving DecidableEq

/-- `Controller.save`: if a save file is configured and the state needs
saving, write the serialized state (`content`) to a temporary file in the
target's directory and rename it over the target (`os.rename`, atomic);
on any failure while writing or renaming (`write_ok = false`), remove the
temporary file and re-raise. -/
def controllerSave (configured needs_saving write_ok : Bool) (content : ℕ)
    (fs : SaveFS) : SaveResult :=
  if configured && needs_saving then
    if write_ok then
      { fs := { target := some content, tmp_present := false },
        needs_saving := false, raised := false }
    else
      { fs := { fs with tmp_present := false },
        needs_saving := needs_saving, raised := true }
  else { fs := fs, needs_saving := needs_saving, raised := false }

/-! ### Construction-time checks (`check_dimensions`, `create_state`) -/

/-- An `int` or per-dimension tuple mesh-size argument. -/
inductive MeshSize where
  | int (n : ℕ)
  | tup (l : List ℕ)
deriving DecidableEq

/-- Expansion of an integral mesh size to one entry per dimension
(`mesh_size = tuple(mesh_size for _ in range(len(limits)))`). -/
def MeshSize.expand (m : MeshSize) (dim : ℕ) : List ℕ :=
  match m with
  | MeshSize.int n => List.replicate dim n
  | MeshSize.tup l => l

/-- `Controller.check_dimensions` (lines 100–119): after expanding integral
mesh sizes, `limits`, `mesh_size` and `refinement_mesh_size` must all have
equal dimensionality, else a `ValueError` is raised. -/
def check_dimensions (limits : List (ℚ × ℚ))
    (mesh_size refinement_mesh_size : MeshSize) :
    Except String (ℕ × List ℕ × List ℕ) :=
  if limits.length = (mesh_size.expand limits.length).length ∧
      (mesh_size.expand limits.length).length =
        (refinement_mesh_size.expand limits.length).length then
    Except.ok (limits.length, mesh_size.expand limits.length,
      refinement_mesh_size.expand limits.length)
  else Except.error "Inconsistent dimensions given"

/-- The error classes `Controller` construction can raise. -/
inductive ControllerError where
  | valueError (msg : String)
  | ioError
deriving DecidableEq

/-- The construction sequence of `Controller.__init__` relevant to the fatal
configuration errors: `check_dimensions` runs first, then `create_state`
(lines 121–171).  `create_state` raises a `ValueError` when both an explicit
initial state and `load=True` are given, before any checkpoint read is
attempted; a failed load (`loadResult`, modelling `io.load` which is not
among the sources at hand) propagates as an IO error unless `load_quiet`.
`rebuild` stands for re-ingesting a given prior state (lines 138–156),
`fresh` for the freshly seeded state (lines 157–166). -/
def controllerInit (limits : List (ℚ × ℚ))
    (mesh_size refinement_mesh_size : MeshSize)
    (initial_state : Option ControllerState) (load load_quiet : Bool)
    (loadResult : Except Unit ControllerState)
    (rebuild : ControllerState → ControllerState) (fresh : ControllerState) :
    Except ControllerError ControllerState :=
  match check_dimensions limits mesh_size refinement_mesh_size with
  | Except.error msg => Except.error (ControllerError.valueError msg)
  | Except.ok _ =>
    if load then
      match initial_state with
      | some _ =>
          Except.error (ControllerError.valueError
            "Cannot set the initial state explicitly and set load=True simultaneously.")
      | none =>
          match loadResult with
          | Except.ok stLoaded => Except.ok (rebuild stLoaded)
          | Except.error _ =>
              if load_quiet then Except.ok fresh
              else Except.error ControllerError.ioError
    else
      match initial_state with
      | some st0 => Except.ok (rebuild st0)
      | none => Except.ok fresh

/-- The count of accepted nodes within the cutoff distance of `pos`, exact
position matches excluded: what `_check_pos_refinement` compares against its
tolerance. -/
def countWithin (cfg : Controller) (st : ControllerState) (pos : List ℚ) :
    ℕ :=
  (st.result.get_neighbour_distance_iterator pos).countP
    fun d => decide (d < cfg.dist_cutoff_sq)

/-- Whether an event respects the concurrency bound: suspension points must
record at most `bound` running simplices; other events carry no running
count. -/
def suspWithin (bound : ℕ) : SchedEvent → Bool
  | SchedEvent.susp n => decide (n ≤ bound)
  | _ => true

/-! ### Concrete instances used to separate the two deduplication decision
points -/

/-- One non-periodic dimension on `[0, 1)`. -/
def exCoordSys : CoordinateSystem :=
  { limits := [(0, 1)], periodic := [false] }

/-- A container with `gap_threshold = 1`, `dist_cutoff = 1/3` holding one
accepted node at `[1/2]`. -/
def exContainer : ResultContainer :=
  ((ResultContainer.empty exCoordSys 1 (1 / 3)).add_result
    { pos := [1 / 2], value := 0, success := true }).1

/-- A controller with the default deduplication policy
(`recheck_pos_dist = True`, `recheck_count_cutoff = 3`) and a refinement
stencil configured. -/
def exController : Controller :=
  { dist_cutoff_sq := (1 / 3) ^ 2
    recheck_pos_dist := true
    recheck_count_cutoff := 3
    refinement_stencil := some [[[0], [1 / 10]]]
    num_minimize_parallel := 1
    env := fun _ => (0, Except.error 0) }

/-- The controller state holding `exContainer` and empty queues. -/
def exState : ControllerState :=
  { result := exContainer
    simplex_queue := ⟨[], [], []⟩
    position_queue := ⟨[]⟩
    needs_saving := false }

/-- A successful minimization result at `[11/20]`, within `dist_cutoff` of
the accepted node `[1/2]`. -/
def exResult : MinimizationResult :=
  { pos := [11 / 20], value := 0, success := true }

/-! ## Theorems -/

/-- Neighbour queries only ever return stored values. -/
theorem CellList.get_neighbour_values_subset {α : Type} (cl : CellList α)
    (frac : List ℚ) (periodic : Bool) (v : α)
    (hv : v ∈ cl.get_neighbour_values frac periodic) : v ∈ cl.values := by
  simp only [CellList.get_neighbour_values, CellList.values,
    List.mem_map] at hv ⊢
  obtain ⟨p, hp, rfl⟩ := hv
  exact ⟨p, (List.mem_filter.mp hp).1, rfl⟩

theorem insertByValue_length (x : SimVertex) (l : List SimVertex) :
    (insertByValue x l).length = l.length + 1 := by
  induction l with
  | nil => rfl
  | cons y ys ih => simp only [insertByValue]; split <;> simp [ih]

theorem sortByValue_length (l : List SimVertex) :
    (sortByValue l).length = l.length := by
  induction l with
  | nil => rfl
  | cons x xs ih => simp [sortByValue, insertByValue_length, ih]

theorem nmShrink_length (f : List ℚ → ℚ) (sim : List SimVertex) :
    (nmShrink f sim).length = sim.length := by
  cases sim <;> simp [nmShrink]

theorem replaceWorst_length (sim : List SimVertex) (v : SimVertex)
    (h : sim ≠ []) : (replaceWorst sim v).length = sim.length := by
  have : sim.length ≠ 0 := by simpa using List.length_pos.mpr h |>.ne'
  simp [replaceWorst, List.length_dropLast]
  omega

theorem nmBody_length (f : List ℚ → ℚ) (sim : List SimVertex)
    (h : sim ≠ []) : (nmBody f sim).1.length = sim.length := by
  simp only [nmBody]
  split_ifs <;>
    simp [replaceWorst_length _ _ h, nmShrink_length]

theorem nmBody_evals (f : List ℚ → ℚ) (sim : List SimVertex)
    (h : sim ≠ []) : (nmBody f sim).2 ≤ sim.length + 1 := by
  have : 1 ≤ sim.length := List.length_pos.mpr h
  simp only [nmBody]
  split_ifs <;> simp <;> omega

/-- Bounds maintained by the main loop: the iteration count never passes
`maxiter` (beyond its starting value), the simplex size is preserved, and
each pass adds at most `sim.length + 1` objective evaluations. -/
theorem nmLoop_bounds (f : List ℚ → ℚ) (xtol ftol : ℚ)
    (maxfun maxiter : ℕ) :
    ∀ k (st : NMState), maxiter - st.iterations = k → st.sim ≠ [] →
      (nmLoop f xtol ftol maxfun maxiter st).iterations ≤
          max st.iterations maxiter ∧
        (nmLoop f xtol ftol maxfun maxiter st).sim.length = st.sim.length ∧
        (nmLoop f xtol ftol maxfun maxiter st).fcalls ≤
          st.fcalls + (maxiter - st.iterations) * (st.sim.length + 1) := by
  intro k
  induction k using Nat.strong_induction_on with
  | _ k ih =>
    intro st hk h
    rw [nmLoop]
    split_ifs with hlt hconv
    · exact ⟨by omega, rfl, by omega⟩
    · dsimp only
      have h1 : (nmBody f st.sim).1.length = st.sim.length :=
        nmBody_length f st.sim h
      have hev : (nmBody f st.sim).2 ≤ st.sim.length + 1 :=
        nmBody_evals f st.sim h
      have hne : sortByValue (nmBody f st.sim).1 ≠ [] := by
        intro hcon
        have hlen := congrArg List.length hcon
        rw [sortByValue_length, h1] at hlen
        exact h (List.length_eq_zero.mp hlen)
      have hrec := ih (maxiter - (st.iterations + 1)) (by omega)
        { sim := sortByValue (nmBody f st.sim).1
          fcalls := st.fcalls + (nmBody f st.sim).2
          iterations := st.iterations + 1 } rfl hne
      obtain ⟨ihit, ihlen, ihfc⟩ := hrec
      simp only at ihit ihlen ihfc
      rw [sortByValue_length, h1] at ihlen ihfc
      refine ⟨by omega, by omega, ?_⟩
      have hsplit : maxiter - st.iterations =
          (maxiter - (st.iterations + 1)) + 1 := by omega
      rw [hsplit, Nat.add_mul, Nat.one_mul]
      omega
    · exact ⟨by omega, rfl, by omega⟩

/-- C1: `add_result` first normalizes `res.pos` through the coordinate
system, then routes the result to exactly one of the two stores and returns
the acceptance flag: if `success` is false or `value > gap_threshold` the
result is appended to the rejected list and `False` is returned; otherwise
it is inserted into the cell-list index keyed by its fractional position and
`True` is returned.  The untaken store is untouched in either case, so no
result ends up in both. -/
theorem c1_add_result_routing (c : ResultContainer)
    (res : MinimizationResult) :
    ((c.add_result res).2.2 =
        { res with pos := c.coordinate_system.normalize_position res.pos }) ∧
      ((c.add_result res).2.1 = false ↔
        res.success = false ∨ res.value > c.gap_threshold) ∧
      ((c.add_result res).2.1 = false →
        (c.add_result res).1 =
          { c with rejected_results :=
              c.rejected_results ++ [(c.add_result res).2.2] }) ∧
      ((c.add_result res).2.1 = true →
        (c.add_result res).1 =
          { c with
              nodes := c.nodes.add_point
                  (c.coordinate_system.get_frac ((c.add_result res).2.2).pos)
                  (c.add_result res).2.2 }) := by
  unfold ResultContainer.add_result
  dsimp only
  split_ifs with h <;>
    simp only [Bool.or_eq_true, Bool.not_eq_true', decide_eq_true_eq] at h <;>
    refine ⟨rfl, ?_, ?_, ?_⟩ <;> simp_all

/-- C8: the neighbour-distance query yields the (squared) minimum-image
distance from `pos` to each spatially-nearby accepted result; every stored
result whose position exactly equals `pos` is excluded, and every candidate
comes from the accepted-node index, so rejected results never appear.  The
query is a pure function of the container (read-only by construction). -/
theorem c8_neighbour_distance_query (c : ResultContainer) (pos : List ℚ) :
    (c.get_neighbour_distance_iterator pos =
        (c.get_neighbour_iterator pos).map
          fun r => c.coordinate_system.distance_sq pos r.pos) ∧
      (∀ r ∈ c.get_neighbour_iterator pos,
        r ∈ c.nodes.values ∧ r.pos ≠ pos) ∧
      (c.get_neighbour_iterator pos =
        (c.nodes.get_neighbour_values
            (c.coordinate_system.get_frac pos) true).filter
          fun r => r.pos ≠ pos) := by
  refine ⟨rfl, ?_, rfl⟩
  intro r hr
  simp only [ResultContainer.get_neighbour_iterator, List.mem_filter,
    decide_eq_true_eq] at hr
  exact ⟨CellList.get_neighbour_values_subset _ _ _ _ hr.1, hr.2⟩

/-- C4: `save` persists the state iff a save file is configured and the
state needs saving; the write goes to a temporary file in the target's
directory and is renamed over the target, and on any write failure the
temporary file is removed and the exception re-raised — the target always
holds either the old checkpoint or the complete new one, never a partial
write. -/
theorem c4_save_atomic (configured needs_saving write_ok : Bool)
    (content : ℕ) (fs : SaveFS) :
    (¬(configured = true ∧ needs_saving = true) →
        controllerSave configured needs_saving write_ok content fs =
          { fs := fs, needs_saving := needs_saving, raised := false }) ∧
      (configured = true → needs_saving = true → write_ok = true →
        controllerSave configured needs_saving write_ok content fs =
          { fs := { target := some content, tmp_present := false },
            needs_saving := false, raised := false }) ∧
      (configured = true → needs_saving = true → write_ok = false →
        controllerSave configured needs_saving write_ok content fs =
          { fs := { target := fs.target, tmp_present := false },
            needs_saving := needs_saving, raised := true }) ∧
      ((controllerSave configured needs_saving write_ok content fs).fs.target
          = fs.target ∨
        (controllerSave configured needs_saving write_ok content fs).fs.target
          = some content) := by
  unfold controllerSave
  cases configured <;> cases needs_saving <;> cases write_ok <;> simp

/-- C7: controller construction fails with a `ValueError`-class error before
any run state is produced when, after expanding an integral mesh size to one
entry per dimension, `limits`, `initial_mesh_size` and
`refinement_mesh_size` do not all have equal dimensionality, and likewise
when an explicit initial state is given together with `load=True`;
construction succeeds exactly when the dimensions agree, no such conflict
exists, and any requested load either succeeds or is quiet. -/
theorem c7_construction_errors :
    (∀ (limits : List (ℚ × ℚ)) (ms rms : MeshSize),
        (check_dimensions limits ms rms).isOk = true ↔
          limits.length = (ms.expand limits.length).length ∧
            (ms.expand limits.length).length =
              (rms.expand limits.length).length) ∧
      (∀ (limits : List (ℚ × ℚ)) (ms rms : MeshSize),
        ¬((check_dimensions limits ms rms).isOk = true) →
        ∀ st0 load lq lr rebuild fresh,
          ∃ msg, controllerInit limits ms rms st0 load lq lr rebuild fresh =
            Except.error (ControllerError.valueError msg)) ∧
      (∀ (limits : List (ℚ × ℚ)) (ms rms : MeshSize) st0 lq lr rebuild fresh,
        (check_dimensions limits ms rms).isOk = true →
        ∃ msg,
          controllerInit limits ms rms (some st0) true lq lr rebuild fresh =
            Except.error (ControllerError.valueError msg)) ∧
      (∀ (limits : List (ℚ × ℚ)) (ms rms : MeshSize) ist load lq lr rebuild
          fresh,
        (∃ st, controllerInit limits ms rms ist load lq lr rebuild fresh =
            Except.ok st) ↔
          (check_dimensions limits ms rms).isOk = true ∧
            (load = true → ist = none ∧ (lr.isOk = true ∨ lq = true))) := by
  refine ⟨?_, ?_, ?_, ?_⟩
  · intro limits ms rms
    unfold check_dimensions
    split_ifs with h <;>
      · simp only [Except.isOk, Except.toBool]
        simpa using h
  · intro limits ms rms hbad st0 load lq lr rebuild fresh
    unfold check_dimensions at hbad
    unfold controllerInit check_dimensions
    split_ifs at hbad with h
    · simp [Except.isOk, Except.toBool] at hbad
    · rw [if_neg h]
      exact ⟨_, rfl⟩
  · intro limits ms rms st0 lq lr rebuild fresh hok
    unfold check_dimensions at hok
    unfold controllerInit check_dimensions
    split_ifs at hok with h
    · rw [if_pos h]
      exact ⟨_, rfl⟩
    · simp [Except.isOk, Except.toBool] at hok
  · intro limits ms rms ist load lq lr rebuild fresh
    unfold controllerInit check_dimensions
    by_cases h : limits.length = (ms.expand limits.length).length ∧
        (ms.expand limits.length).length = (rms.expand limits.length).length
    · rw [if_pos h]
      cases load
      · cases ist <;> simp [Except.isOk, Except.toBool]
      · cases ist
        · cases lr with
          | ok stL => simp [Except.isOk, Except.toBool]
          | error u =>
              cases lq <;> simp [Except.isOk, Except.toBool]
        · simp [Except.isOk, Except.toBool]
    · rw [if_neg h]
      simp [Except.isOk, Except.toBool]

/-- The early-exit counting loop of `_check_pos_refinement` agrees with the
plain count of distances below the cutoff. -/
theorem checkCount_iff (cutoff : ℚ) (k : ℕ) (l : List ℚ) :
    ∀ c, c ≤ k → (checkCount cutoff k l c = true ↔
      c + l.countP (fun d => decide (d < cutoff)) ≤ k) := by
  induction l with
  | nil => intro c hc; simpa [checkCount] using hc
  | cons d rest ih =>
      intro c hc
      simp only [checkCount, List.countP_cons]
      by_cases hd : d < cutoff
      · simp only [if_pos hd]
        rw [if_pos (decide_eq_true hd)]
        by_cases hk : c + 1 > k
        · rw [if_pos hk]
          simp only [Bool.false_eq_true, false_iff]
          omega
        · rw [if_neg hk, ih (c + 1) (by omega)]
          omega
      · simp only [if_neg hd]
        rw [if_neg (by omega : ¬c > k), ih c hc,
          if_neg (show ¬(decide (d < cutoff) = true) by simp [hd])]
        omega

/-- `_check_pos_refinement` passes iff the number of accepted nodes within
the cutoff (exact position matches excluded) is at most the tolerance. -/
theorem check_pos_refinement_iff (cfg : Controller) (st : ControllerState)
    (pos : List ℚ) (k : ℕ) :
    cfg.check_pos_refinement st pos k = true ↔
      countWithin cfg st pos ≤ k := by
  unfold Controller.check_pos_refinement countWithin
  rw [checkCount_iff _ _ _ 0 (Nat.zero_le k)]
  simp

/-- C2 (amended): both decision points run `_check_pos_refinement` — the
count of accepted nodes within `dist_cutoff` minimum-image distance of the
position, excluding exact position matches — but with different tolerances.
At the position-queue pop, the position is refined iff `recheck_pos_dist` is
unset or at most `recheck_count_cutoff` such nodes exist; at acceptance, the
newly accepted position is enqueued for refinement iff a refinement stencil
is configured and no other accepted node at all (tolerance 0) lies within
`dist_cutoff`. -/
theorem c2_dedup_decision_points (cfg : Controller) (st : ControllerState)
    (pos : List ℚ) (res : MinimizationResult) :
    (cfg.pop_decision st pos = true ↔
        cfg.recheck_pos_dist = false ∨
          countWithin cfg st pos ≤ cfg.recheck_count_cutoff) ∧
      (cfg.accept_decision st pos = true ↔ countWithin cfg st pos = 0) ∧
      ((cfg.process_result st res).position_queue.queued =
        if ((st.result.add_result res).2.1 &&
              cfg.refinement_stencil.isSome) &&
            cfg.accept_decision
              { st with
                  result := (st.result.add_result res).1
                  needs_saving := true }
              (st.result.add_result res).2.2.pos then
          st.position_queue.queued ++ [(st.result.add_result res).2.2.pos]
        else st.position_queue.queued) := by
  refine ⟨?_, ?_, ?_⟩
  · unfold Controller.pop_decision
    rw [Bool.or_eq_true, check_pos_refinement_iff]
    simp
  · unfold Controller.accept_decision
    rw [check_pos_refinement_iff]
    omega
  · unfold Controller.process_result
    dsimp only
    by_cases h1 : (st.result.add_result res).2.1 = true
    · by_cases h2 : cfg.refinement_stencil.isSome = true
      · simp only [h1, h2, Bool.true_and, Bool.and_true]
        by_cases h3 : cfg.accept_decision
            { st with
                result := (st.result.add_result res).1
                needs_saving := true }
            (st.result.add_result res).2.2.pos = true
        · rw [if_pos h3, if_pos h3]
          rfl
        · rw [if_neg h3, if_neg h3]
          simp
      · simp only [Bool.not_eq_true] at h2
        simp [h1, h2]
    · simp only [Bool.not_eq_true] at h1
      simp [h1]

/-- C2 counterexample: a successful result at `[11/20]` next to the single
accepted node `[1/2]` — one node within `dist_cutoff`, which is at most
`recheck_count_cutoff = 3`, so the claim's uniform rule mandates refinement
at the acceptance point; yet `process_result` enqueues nothing, because the
acceptance-time check runs with tolerance 0. -/
theorem c2_counterexample :
    (exController.process_result exState exResult).position_queue.queued = []
      ∧ (exState.result.add_result exResult).2.1 = true
      ∧ exController.refinement_stencil.isSome = true
      ∧ countWithin exController
          { exState with
              result := (exState.result.add_result exResult).1
              needs_saving := true }
          (exState.result.add_result exResult).2.2.pos = 1
      ∧ 1 ≤ exController.recheck_count_cutoff := by
  refine ⟨?_, ?_, rfl, ?_, by norm_num [exController]⟩ <;>
    norm_num [Controller.process_result, Controller.accept_decision,
      Controller.check_pos_refinement, checkCount,
      ResultContainer.add_result,
      ResultContainer.get_neighbour_distance_iterator,
      ResultContainer.get_neighbour_iterator, CellList.get_neighbour_values,
      CellList.isNeighbourBucket, CellList.isNeighbourIdx,
      CellList.idxMatches, CellList.bucketIdx, CellList.add_point,
      CellList.values, CoordinateSystem.normalize_position,
      CoordinateSystem.get_frac, CoordinateSystem.distance_sq,
      CoordinateSystem.minImageDeltaSq, CoordinateSystem.size,
      ResultContainer.empty, ResultContainer.mkNumCells, qmod, countWithin,
      exController, exState, exContainer, exResult, exCoordSys,
      PositionQueue.add_objects, List.range_succ]

/-- C9: `root_nelder_mead` is a total function — on failure to converge it
returns an `OptimizeResult` rather than raising — and the returned `success`
flag is `true` iff the search stopped before exhausting both the evaluation
budget (`maxfev`, default `200 * N`) and the iteration budget (`maxiter`,
default `200 * N`); when either budget is exhausted the result has
`success = false`. -/
theorem c9_success_iff_within_budgets (f : List ℚ → ℚ) (x0 : List ℚ)
    (xtol ftol : ℚ) (maxiter maxfev : Option ℕ) :
    ((root_nelder_mead f x0 xtol ftol maxiter maxfev).success = true ↔
      (root_nelder_mead f x0 xtol ftol maxiter maxfev).nfev <
          maxfev.getD (x0.length * 200) ∧
        (root_nelder_mead f x0 xtol ftol maxiter maxfev).nit <
          maxiter.getD (x0.length * 200)) := by
  simp only [root_nelder_mead]
  split_ifs with h1 h2 <;> simp <;> omega

/-- C10: for every (total) objective, `root_nelder_mead` terminates with
explicit bounds: the final iteration count stays within the resolved
`maxiter` budget (default `200 * N`, apart from the initial value 1 when the
budget is 0), and the total number of objective evaluations is bounded by the
`N + 1` start-up evaluations plus at most `N + 2` evaluations for each of the
at most `maxiter - 1` loop passes. -/
theorem c10_bounded_evaluations (f : List ℚ → ℚ) (x0 : List ℚ)
    (xtol ftol : ℚ) (maxiter maxfev : Option ℕ) :
    (root_nelder_mead f x0 xtol ftol maxiter maxfev).nit ≤
        max 1 (maxiter.getD (x0.length * 200)) ∧
      (root_nelder_mead f x0 xtol ftol maxiter maxfev).nfev ≤
        (x0.length + 1) +
          (maxiter.getD (x0.length * 200) - 1) * (x0.length + 2) := by
  have hne : (sortByValue ((nmInitialPoints x0).map fun p => (p, f p))) ≠ [] := by
    intro hcon
    have := congrArg List.length hcon
    rw [sortByValue_length] at this
    simp [nmInitialPoints] at this
  have hlen : (sortByValue ((nmInitialPoints x0).map fun p => (p, f p))).length
      = x0.length + 1 := by
    rw [sortByValue_length]
    simp [nmInitialPoints]
  have hb := nmLoop_bounds f xtol ftol (maxfev.getD (x0.length * 200))
    (maxiter.getD (x0.length * 200)) _
    { sim := sortByValue ((nmInitialPoints x0).map fun p => (p, f p))
      fcalls := x0.length + 1
      iterations := 1 } rfl hne
  simp only [root_nelder_mead]
  obtain ⟨hit, _, hfc⟩ := hb
  constructor
  · simpa using hit
  · simp only at hfc
    rw [hlen] at hfc
    simpa using hfc

/-! ### Scheduler lemmas -/

theorem pop_queued_spec {α : Type} (q : SimplexQueue α)
    (x : α × SimplexQueue α) (h : q.pop_queued = some x) :
    x.2.running = q.running ++ [x.1] ∧
      x.2.queued.length + 1 = q.queued.length := by
  unfold SimplexQueue.pop_queued at h
  rcases hq : q.queued with _ | ⟨a, rest⟩ <;> rw [hq] at h
  · simp at h
  · simp only [Option.some.injEq] at h
    rw [← h]
    simp [hq]

theorem process_result_simplex_queue (cfg : Controller)
    (st : ControllerState) (res : MinimizationResult) :
    (cfg.process_result st res).simplex_queue = st.simplex_queue := by
  unfold Controller.process_result
  dsimp only
  split_ifs <;> rfl

theorem drain_positions_running (cfg : Controller) :
    ∀ k st, st.position_queue.queued.length = k →
      (cfg.drain_positions st).simplex_queue.running =
        st.simplex_queue.running := by
  intro k
  induction k using Nat.strong_induction_on with
  | _ k ih =>
    intro st hk
    rw [Controller.drain_positions]
    split_ifs with h1
    · rfl
    · rcases hq : st.position_queue.queued with _ | ⟨pos, rest⟩
      · simp only [hq]
      · simp only [hq]
        rw [hq] at hk
        simp only [List.length_cons] at hk
        split_ifs with h2
        · rw [ih rest.length (by omega) _ (by simp)]
          simp [SimplexQueue.add_objects]
        · rw [ih rest.length (by omega) _ (by simp)]

theorem schedule_aux_running_le (cfg : Controller) :
    ∀ slots st futs,
      (cfg.schedule_aux slots st futs).1.simplex_queue.num_running ≤
        max st.simplex_queue.num_running cfg.num_minimize_parallel := by
  intro slots
  induction slots with
  | zero => intro st futs; exact le_max_left _ _
  | succ n ih =>
    intro st futs
    rw [Controller.schedule_aux]
    split_ifs with h1
    · have hdr := drain_positions_running cfg _ st rfl
      rcases hpop : (cfg.drain_positions st).simplex_queue.pop_queued with
        _ | ⟨sq⟩
      · simp only [hpop]
        simp only [SimplexQueue.num_running] at h1 ⊢
        rw [hdr]
        exact le_max_left _ _
      · simp only [hpop]
        obtain ⟨hrun, _⟩ := pop_queued_spec _ _ hpop
        have hsq : sq.2.num_running = st.simplex_queue.num_running + 1 := by
          simp only [SimplexQueue.num_running]
          rw [hrun, List.length_append, hdr]
          simp
        refine le_trans (ih _ _) ?_
        have h1' : st.simplex_queue.num_running <
            cfg.num_minimize_parallel := h1
        show max sq.2.num_running cfg.num_minimize_parallel ≤ _
        rw [hsq, Nat.max_eq_right (by omega), Nat.max_eq_right (by omega)]
    · exact le_max_left _ _

theorem schedule_aux_events_ok (cfg : Controller) (b : ℕ) :
    ∀ slots st futs,
      ((cfg.schedule_aux slots st futs).2.2).all (suspWithin b) = true := by
  intro slots
  induction slots with
  | zero => intro st futs; rfl
  | succ n ih =>
    intro st futs
    rw [Controller.schedule_aux]
    split_ifs with h1
    · rcases hpop : (cfg.drain_positions st).simplex_queue.pop_queued with
        _ | ⟨sq⟩
      · simp [hpop]
      · simp only [hpop]
        simp [List.all_cons, suspWithin, ih]
    · rfl

theorem removeFirst_length_le {α : Type} [DecidableEq α] (x : α)
    (l : List α) : (SimplexQueue.removeFirst x l).length ≤ l.length := by
  induction l with
  | nil => simp [SimplexQueue.removeFirst]
  | cons y ys ih =>
    simp only [SimplexQueue.removeFirst]
    split_ifs <;> simp <;> omega

theorem sleep_step_running_le (cfg : Controller) :
    ∀ futs st,
      (cfg.sleep_step st futs).1.simplex_queue.running.length ≤
        st.simplex_queue.running.length := by
  intro futs
  induction futs with
  | nil => intro st; exact le_refl _
  | cons f rest ih =>
    intro st
    rw [Controller.sleep_step]
    split_ifs with h0 h1
    · exact ih st
    · rcases hout : f.outcome with e | res
      · simp only [hout]
        exact ih st
      · simp only [hout]
        refine le_trans (ih _) ?_
        simp only [SimplexQueue.set_finished, process_result_simplex_queue]
        exact removeFirst_length_le _ _
    · exact ih st

theorem sleep_step_countdowns (cfg : Controller) :
    ∀ futs st,
      ((cfg.sleep_step st futs).2).map (fun f => f.countdown) =
        futs.map (fun f => f.countdown - 1) := by
  intro futs
  induction futs with
  | nil => intro st; rfl
  | cons f rest ih =>
    intro st
    rw [Controller.sleep_step]
    split_ifs with h0 h1
    · simp [ih, h0]
    · rcases hout : f.outcome with e | res <;> simp [hout, ih, h1]
    · simp [ih]

theorem mem_le_foldr_max (l : List ℕ) : ∀ a ∈ l, a ≤ l.foldr max 0 := by
  induction l with
  | nil => simp
  | cons x xs ih =>
    intro a ha
    rcases List.mem_cons.mp ha with rfl | ha
    · exact le_max_left _ _
    · exact le_trans (ih a ha) (le_max_right _ _)

theorem gather_aux_done (cfg : Controller) :
    ∀ n st futs, (∀ f ∈ futs, f.countdown ≤ n) →
      ((cfg.gather_aux n st futs).2).all
        (fun f => f.countdown == 0) = true := by
  intro n
  induction n with
  | zero =>
    intro st futs hb
    rw [Controller.gather_aux]
    simp only [List.all_eq_true, beq_iff_eq]
    intro f hf
    exact Nat.le_zero.mp (hb f hf)
  | succ n ih =>
    intro st futs hb
    rw [Controller.gather_aux]
    split_ifs with h1
    · exact h1
    · apply ih
      intro f hf
      have : f.countdown ∈ ((cfg.sleep_step st futs).2).map
          (fun f => f.countdown) := List.mem_map_of_mem _ hf
      rw [sleep_step_countdowns] at this
      simp only [List.mem_map] at this
      obtain ⟨g, hg, hgf⟩ := this
      have := hb g hg
      omega

theorem gather_all_done (cfg : Controller) (st : ControllerState)
    (futs : List TaskFuture) :
    ((cfg.gather_all st futs).2).all (fun f => f.countdown == 0) = true := by
  unfold Controller.gather_all
  apply gather_aux_done
  intro f hf
  exact mem_le_foldr_max _ _ (List.mem_map_of_mem (fun f => f.countdown) hf)

theorem doneErrors_mem (futs : List TaskFuture) (f : TaskFuture) (e : ℕ)
    (hf : f ∈ futs) (hdone : f.countdown = 0)
    (herr : f.outcome = Except.error e) : e ∈ doneErrors futs := by
  unfold doneErrors
  apply List.mem_filterMap.mpr
  refine ⟨f, List.mem_filter.mpr ⟨hf, by simp [hdone]⟩, by rw [herr]⟩

theorem doneErrors_exists (futs : List TaskFuture) (e : ℕ)
    (he : e ∈ doneErrors futs) :
    ∃ f ∈ futs, f.countdown = 0 ∧ f.outcome = Except.error e := by
  unfold doneErrors at he
  obtain ⟨f, hf, hfe⟩ := List.mem_filterMap.mp he
  obtain ⟨hmem, hdone⟩ := List.mem_filter.mp hf
  refine ⟨f, hmem, by simpa using hdone, ?_⟩
  rcases hout : f.outcome with err | res <;> rw [hout] at hfe
  · simp only [Option.some.injEq] at hfe
    rw [hfe]
  · simp at hfe

theorem loop_guard_false_iff (st : ControllerState) :
    ((!st.simplex_queue.finished || st.position_queue.has_queued) = false ↔
      st.simplex_queue.queued = [] ∧ st.simplex_queue.running = [] ∧
        st.position_queue.queued = []) := by
  simp [SimplexQueue.finished, PositionQueue.has_queued, List.isEmpty_iff,
    and_assoc]

theorem create_tasks_loop_completed_spec (cfg : Controller) :
    ∀ fuel st futs st1 futs1,
      (cfg.create_tasks_loop fuel st futs).1 =
          RunOutcome.completed st1 futs1 →
        st1.simplex_queue.queued = [] ∧ st1.simplex_queue.running = [] ∧
          st1.position_queue.queued = [] := by
  intro fuel
  induction fuel with
  | zero =>
    intro st futs st1 futs1 h
    simp [Controller.create_tasks_loop] at h
  | succ n ih =>
    intro st futs st1 futs1 h
    rw [Controller.create_tasks_loop] at h
    by_cases hg : (!st.simplex_queue.finished ||
        st.position_queue.has_queued) = true
    · rw [if_pos hg] at h
      dsimp only at h
      rcases herr : doneErrors (cfg.sleep_step (cfg.schedule_phase st futs).1
          (cfg.schedule_phase st futs).2.1).2 with _ | ⟨e, rest⟩ <;>
        rw [herr] at h
      · exact ih _ _ _ _ h
      · simp at h
    · rw [if_neg hg] at h
      dsimp only at h
      injection h with h1 h2
      subst h1
      simp only [Bool.not_eq_true] at hg
      exact (loop_guard_false_iff _).mp hg

theorem create_tasks_loop_aborted_spec (cfg : Controller) :
    ∀ fuel st futs e drained futsA,
      (cfg.create_tasks_loop fuel st futs).1 =
          RunOutcome.aborted e drained futsA →
        drained = doneErrors futsA ∧ drained.head? = some e ∧
          (cfg.create_tasks_loop fuel st futs).2.getLast? =
            some SchedEvent.abortRun := by
  intro fuel
  induction fuel with
  | zero =>
    intro st futs e drained futsA h
    simp [Controller.create_tasks_loop] at h
  | succ n ih =>
    intro st futs e drained futsA h
    rw [Controller.create_tasks_loop] at h ⊢
    by_cases hg : (!st.simplex_queue.finished ||
        st.position_queue.has_queued) = true
    · rw [if_pos hg] at h ⊢
      dsimp only at h ⊢
      rcases herr : doneErrors (cfg.sleep_step (cfg.schedule_phase st futs).1
          (cfg.schedule_phase st futs).2.1).2 with _ | ⟨e1, rest⟩
      · rw [herr] at h
        dsimp only at h ⊢
        obtain ⟨hd, hh, hl⟩ := ih _ _ _ _ _ h
        refine ⟨hd, hh, ?_⟩
        have hne : (cfg.create_tasks_loop n
            (cfg.sleep_step (cfg.schedule_phase st futs).1
              (cfg.schedule_phase st futs).2.1).1
            (List.filter (fun f => f.countdown != 0)
              (cfg.sleep_step (cfg.schedule_phase st futs).1
                (cfg.schedule_phase st futs).2.1).2)).2 ≠ [] := by
          intro hnil
          rw [hnil] at hl
          simp at hl
        rw [List.append_cons, List.getLast?_append_of_ne_nil _ hne]
        exact hl
      · rw [herr] at h
        dsimp only at h ⊢
        injection h with h1 h2 h3
        subst h1; subst h2; subst h3
        refine ⟨herr.symm, rfl, ?_⟩
        rw [List.getLast?_append_cons]
        rfl
    · rw [if_neg hg] at h
      dsimp only at h
      simp at h

/-- Events contributed by one loop pass are `sched` events plus a `susp`
recording the running count at the suspension, all within the bound when the
running count entering the pass is. -/
theorem create_tasks_loop_events_bounded (cfg : Controller) :
    ∀ fuel st futs,
      st.simplex_queue.num_running ≤ cfg.num_minimize_parallel →
      ((cfg.create_tasks_loop fuel st futs).2).all
        (suspWithin cfg.num_minimize_parallel) = true := by
  intro fuel
  induction fuel with
  | zero => intro st futs hb; rfl
  | succ n ih =>
    intro st futs hb
    rw [Controller.create_tasks_loop]
    by_cases hg : (!st.simplex_queue.finished ||
        st.position_queue.has_queued) = true
    · rw [if_pos hg]
      dsimp only
      have hsched : ((cfg.schedule_phase st futs).2.2).all
          (suspWithin cfg.num_minimize_parallel) = true :=
        schedule_aux_events_ok cfg _ _ _ _
      have hrun1 : (cfg.schedule_phase st futs).1.simplex_queue.num_running ≤
          cfg.num_minimize_parallel := by
        have hs := schedule_aux_running_le cfg
          (cfg.num_minimize_parallel - st.simplex_queue.num_running) st futs
        rw [Controller.schedule_phase]
        omega
      have hrun2 : (cfg.sleep_step (cfg.schedule_phase st futs).1
          (cfg.schedule_phase st futs).2.1).1.simplex_queue.num_running ≤
          cfg.num_minimize_parallel := by
        have := sleep_step_running_le cfg
          (cfg.schedule_phase st futs).2.1 (cfg.schedule_phase st futs).1
        simp only [SimplexQueue.num_running] at hrun1 ⊢
        omega
      rcases herr : doneErrors (cfg.sleep_step (cfg.schedule_phase st futs).1
          (cfg.schedule_phase st futs).2.1).2 with _ | ⟨e1, rest⟩
      · simp only [List.all_append, List.all_cons, Bool.and_eq_true]
        refine ⟨hsched, ?_, ih _ _ hrun2⟩
        simp [suspWithin, hrun1]
      · simp only [List.all_append, List.all_cons, Bool.and_eq_true]
        refine ⟨hsched, ?_⟩
        simp [suspWithin, hrun1]
    · rw [if_neg hg]
      rfl

/-- C3: the scheduling loop runs while the simplex queue is not finished or
the position queue has queued entries, and exits exactly when no simplex is
queued or running and no position is queued; after the loop, all outstanding
scheduled futures are awaited to completion before the final checkpoint is
written (the `gatherTasks` event precedes `finalSave` and every remaining
future is done). -/
theorem c3_loop_exit_and_shutdown :
    (∀ st : ControllerState,
      ((!st.simplex_queue.finished || st.position_queue.has_queued) = false ↔
        st.simplex_queue.queued = [] ∧ st.simplex_queue.running = [] ∧
          st.position_queue.queued = [])) ∧
    (∀ (cfg : Controller) (fuel : ℕ) (st : ControllerState)
        (futs : List TaskFuture) (st1 : ControllerState)
        (futs1 : List TaskFuture),
      (cfg.create_tasks_loop fuel st futs).1 =
          RunOutcome.completed st1 futs1 →
        st1.simplex_queue.queued = [] ∧ st1.simplex_queue.running = [] ∧
          st1.position_queue.queued = []) ∧
    (∀ (cfg : Controller) (fuel : ℕ) (st st2 : ControllerState)
        (futs2 : List TaskFuture) (evs : List SchedEvent),
      cfg.create_tasks fuel st =
          (RunOutcome.completed st2 futs2, evs) →
        futs2.all (fun f => f.countdown == 0) = true ∧
          ∃ evs0, evs = evs0 ++ [SchedEvent.gatherTasks,
            SchedEvent.finalSave]) := by
  refine ⟨loop_guard_false_iff, create_tasks_loop_completed_spec, ?_⟩
  intro cfg fuel st st2 futs2 evs h
  unfold Controller.create_tasks at h
  rcases hloop : cfg.create_tasks_loop fuel st [] with ⟨out, evs1⟩
  rw [hloop] at h
  rcases out with ⟨e, dr, fA⟩ | ⟨stc, futc⟩ | ⟨sto, futo⟩
  · simp at h
  · dsimp only at h
    injection h with h1 h2
    injection h1 with h3 h4
    subst h4
    exact ⟨gather_all_done cfg stc futc, evs1, h2.symm⟩
  · simp at h

/-- C5: when a scheduled task completes with an exception, the loop
retrieves the exceptions of all completed tasks — every completed future
holding an exception has it drained, so none is left unretrieved — then
re-raises the first encountered one (the head of the drained list, held by
some completed future), and schedules no further work: the abort is the last
event of the run. -/
theorem c5_abort_drains_and_reraises :
    (∀ (cfg : Controller) (fuel : ℕ) (st : ControllerState)
        (futs : List TaskFuture) (e : ℕ) (drained : List ℕ)
        (futsA : List TaskFuture),
      (cfg.create_tasks_loop fuel st futs).1 =
          RunOutcome.aborted e drained futsA →
        drained.head? = some e ∧
          (∃ f ∈ futsA, f.countdown = 0 ∧ f.outcome = Except.error e) ∧
          (∀ f ∈ futsA, f.countdown = 0 →
            ∀ err, f.outcome = Except.error err → err ∈ drained)) ∧
    (∀ (cfg : Controller) (fuel : ℕ) (st : ControllerState)
        (e : ℕ) (drained : List ℕ) (futsA : List TaskFuture)
        (evs : List SchedEvent),
      cfg.create_tasks fuel st = (RunOutcome.aborted e drained futsA, evs) →
        evs.getLast? = some SchedEvent.abortRun) := by
  constructor
  · intro cfg fuel st futs e drained futsA h
    obtain ⟨hd, hh, _⟩ := create_tasks_loop_aborted_spec cfg fuel st futs
      e drained futsA h
    subst hd
    refine ⟨hh, ?_, ?_⟩
    · have he : e ∈ doneErrors futsA := by
        rcases hde : doneErrors futsA with _ | ⟨x, xs⟩ <;> rw [hde] at hh
        · simp at hh
        · simp only [List.head?_cons, Option.some.injEq] at hh
          rw [hh]
          exact List.mem_cons_self _ _
      exact doneErrors_exists _ _ he
    · intro f hf hdone err herr
      exact doneErrors_mem _ f err hf hdone herr
  · intro cfg fuel st e drained futsA evs h
    unfold Controller.create_tasks at h
    rcases hloop : cfg.create_tasks_loop fuel st [] with ⟨out, evs1⟩
    rw [hloop] at h
    rcases out with ⟨e1, dr, fA⟩ | ⟨stc, futc⟩ | ⟨sto, futo⟩
    · have h2 : evs1 = evs := congrArg Prod.snd h
      have h3 := (create_tasks_loop_aborted_spec cfg fuel st [] e1 dr fA
        (by rw [hloop])).2.2
      rw [hloop] at h3
      rw [← h2]
      exact h3
    · simp at h
    · simp at h

/-- C6: at every suspension point of the scheduling loop the number of
running simplices never exceeds `num_minimize_parallel` — starting, as every
run does, with no running simplices, every recorded suspension event
respects the bound (a new minimization is scheduled only while the running
count is strictly below the bound). -/
theorem c6_concurrency_bound (cfg : Controller) (fuel : ℕ)
    (result : ResultContainer) (sqQueued sqFin : List Simplex)
    (pq : List (List ℚ)) (ns : Bool) :
    ((cfg.create_tasks fuel
        { result := result
          simplex_queue := ⟨sqQueued, [], sqFin⟩
          position_queue := ⟨pq⟩
          needs_saving := ns }).2).all
      (suspWithin cfg.num_minimize_parallel) = true := by
  have hb : (⟨sqQueued, [], sqFin⟩ :
      SimplexQueue Simplex).num_running ≤ cfg.num_minimize_parallel := by
    simp [SimplexQueue.num_running]
  unfold Controller.create_tasks
  rcases hloop : cfg.create_tasks_loop fuel
      { result := result
        simplex_queue := ⟨sqQueued, [], sqFin⟩
        position_queue := ⟨pq⟩
        needs_saving := ns } [] with ⟨out, evs1⟩
  have hev : evs1.all (suspWithin cfg.num_minimize_parallel) = true := by
    have := create_tasks_loop_events_bounded cfg fuel
      { result := result
        simplex_queue := ⟨sqQueued, [], sqFin⟩
        position_queue := ⟨pq⟩
        needs_saving := ns } [] hb
    rw [hloop] at this
    exact this
  rcases out with ⟨e, dr, fA⟩ | ⟨stc, futc⟩ | ⟨sto, futo⟩
  · exact hev
  · simp only [List.all_append]
    rw [hev]
    rfl
  · exact hev

end NodeFinder
